import Mathlib

/-!
Shallow embedding of the `mhash` package (extensible hash index lookup
engine) from `mhash/mhash.go`.

Machine integers (`uint64`) are modelled as `Nat` with explicit `% 2 ^ 64`
where Go's wraparound matters; byte truncation (`byte(x)`) is `% 256`.
Go slices become `List`, fallible fetches become `Except`.

The external collaborators (`item.Item` accessor, `memproxy.Session`
scheduler, `encoding/binary`, `encoding/hex`, `BitSet.GetBit`) are not part
of the given source file; where a claim needs them they are modelled from
the specification and marked as such in their doc comments.
-/

namespace Mhash

/-- Constant `maxDeepLevels = 5` from the source. -/
def maxDeepLevels : Nat := 5

/-- Constant `math.MaxUint64`. -/
def maxUint64 : Nat := 2 ^ 64 - 1

/-- Null wrapper: `type Null[T any] struct { Valid bool; Data T }`. -/
structure Null (T : Type) where
  Valid : Bool
  Data : T
  deriving Repr, DecidableEq

/-- Modelled from the spec: `BitSet` is a 256-bit bitmap (the source stores
it as `[32]byte`; its accessor `GetBit` is defined outside the given file).
We abstract the byte-array layout to the bitmap it represents: which of the
256 positions are set. -/
def BitSet : Type := Nat → Bool

/-- Modelled from the spec: `GetBit(offset)` returns whether position
`offset` (0-255) is set; this is the only read operation the lookup core
uses. -/
def BitSet.GetBit (b : BitSet) (offset : Nat) : Bool := b offset

/-- Bucket: `type Bucket[T item.Value] struct { Items []T; Bitset BitSet }`. -/
structure Bucket (T : Type) where
  Items : List T
  Bitset : BitSet

/-- BucketKey: `type BucketKey[R item.Key] struct { RootKey R; Hash uint64; HashLen int }`. -/
structure BucketKey (R : Type) where
  RootKey : R
  Hash : Nat
  HashLen : Nat
  deriving Repr, DecidableEq

/-- Modelled from the spec: Go's `binary.BigEndian.PutUint64` writes the
eight bytes of a `uint64` most-significant first; byte `i` is
`byte(v >> (56 - 8*i))`. -/
def putUint64BE (v : Nat) : List Nat :=
  [v >>> 56 % 256, v >>> 48 % 256, v >>> 40 % 256, v >>> 32 % 256,
   v >>> 24 % 256, v >>> 16 % 256, v >>> 8 % 256, v % 256]

/-- Modelled from the spec: Go's `hex.EncodeToString` applied to one byte
value yields two lowercase hexadecimal characters, high nibble first. -/
def hexDigit (n : Nat) : Char :=
  if n < 10 then Char.ofNat (48 + n) else Char.ofNat (87 + n)

/-- Modelled from the spec: Go's `hex.EncodeToString` over a byte slice:
each byte becomes two lowercase hex characters, in slice order. -/
def hexEncodeToString (bs : List Nat) : String :=
  String.mk (bs.flatMap fun b => [hexDigit (b / 16), hexDigit (b % 16)])

/-- Method `BucketKey.String`: render the root key, a colon, then the hex
encoding of the first `HashLen` bytes of the big-endian encoding of `Hash`.
The root key's own `String()` method is the parameter `rootStr`. -/
def BucketKey.String {R : Type} (rootStr : R → String) (k : BucketKey R) : String :=
  rootStr k.RootKey ++ ":" ++ hexEncodeToString ((putUint64BE k.Hash).take k.HashLen)

/-- Function `computeHashAtLevel`:
`hash & (math.MaxUint64 << (64 - 8*hashLen))`, Go `uint64` wraparound made
explicit with `% 2 ^ 64`. -/
def computeHashAtLevel (hash : Nat) (hashLen : Nat) : Nat :=
  hash &&& ((maxUint64 <<< (64 - 8 * hashLen)) % 2 ^ 64)

/-- Function `computeBitOffsetAtNextLevel`:
`(hash >> (64 - 8 - currentHashLen*8)) & 0xff`. -/
def computeBitOffsetAtNextLevel (hash : Nat) (currentHashLen : Nat) : Nat :=
  (hash >>> (64 - 8 - currentHashLen * 8)) &&& 0xff

/-- Result slot of one Get call:
`type getResult[T any] struct { resp Null[T]; err error }`. The Go `error`
value is `none` (nil), `some .tooDeep` (`ErrHashTooDeep`), or
`some (.fetchError e)` (an error propagated from the bucket fetch, carrying
the backend error `e` unchanged). -/
inductive HashError (E : Type) where
  | tooDeep : HashError E
  | fetchError : E → HashError E
  deriving Repr, DecidableEq

/-- Result record of one Get call (`getResult` in the source, plus the
instrumented trace of every `BucketKey` fetched from the item accessor,
in fetch order). -/
structure getResult (R T E : Type) where
  resp : Null T
  err : Option (HashError E)
  fetches : List (BucketKey R)

/-- The `BucketKey` built by `doGetFn` at a given level:
`BucketKey{RootKey: rootKey, Hash: computeHashAtLevel(keyHash, hashLen), HashLen: hashLen}`. -/
def levelKey {R : Type} (rootKey : R) (keyHash : Nat) (hashLen : Nat) : BucketKey R :=
  { RootKey := rootKey, Hash := computeHashAtLevel keyHash hashLen, HashLen := hashLen }

/-- The descent loop of `Hash.Get` (the `doGetFn` / `nextCallFn` pair),
unrolled from its continuation-passing form into direct recursion: at each
level fetch the bucket for `levelKey`; on fetch error stop with that error;
if the bitset bit at the query key's next-byte offset is set, increment the
level, failing with `ErrHashTooDeep` when it would reach `maxDeepLevels`,
otherwise recurse; if the bit is unset, scan `Items` in order for the first
item whose projected key equals the query key. The item accessor is the
oracle `fetch`; the trace of fetched keys is recorded. -/
def getFromLevel {R T K E : Type} [Inhabited T] [DecidableEq K]
    (fetch : BucketKey R → Except E (Bucket T))
    (getKey : T → K) (rootKey : R) (key : K) (keyHash : Nat)
    (hashLen : Nat) : getResult R T E :=
  let bkey := levelKey rootKey keyHash hashLen
  match fetch bkey with
  | .error e => { resp := ⟨false, default⟩, err := some (.fetchError e), fetches := [bkey] }
  | .ok bucket =>
    let bitOffset := computeBitOffsetAtNextLevel keyHash hashLen
    if bucket.Bitset.GetBit bitOffset then
      if h : hashLen + 1 ≥ maxDeepLevels then
        { resp := ⟨false, default⟩, err := some .tooDeep, fetches := [bkey] }
      else
        let r := getFromLevel fetch getKey rootKey key keyHash (hashLen + 1)
        { resp := r.resp, err := r.err, fetches := bkey :: r.fetches }
    else
      match bucket.Items.find? (fun it => decide (getKey it = key)) with
      | some it => { resp := ⟨true, it⟩, err := none, fetches := [bkey] }
      | none => { resp := ⟨false, default⟩, err := none, fetches := [bkey] }
  termination_by maxDeepLevels - hashLen
  decreasing_by simp only [maxDeepLevels] at *; omega

/-- `Hash.Get`: compute the query key's digest once (`keyHash` is
`keyHashFn key`, modelling `key.Hash()`), start the descent at level 0, and
resolve to the final `(Null[T], error)` pair (with the fetch trace kept for
the analysis). -/
def hashGet {R T K E : Type} [Inhabited T] [DecidableEq K]
    (fetch : BucketKey R → Except E (Bucket T))
    (getKey : T → K) (keyHashFn : K → Nat) (rootKey : R) (key : K) : getResult R T E :=
  getFromLevel fetch getKey rootKey key (keyHashFn key) 0

/-- One-step unfolding of the descent loop at a level whose bucket fetch
fails: the error is stored and returned, and the only fetch issued from
this level on is the current one. -/
theorem getFromLevel_fetchError {R T K E : Type} [Inhabited T] [DecidableEq K]
    (fetch : BucketKey R → Except E (Bucket T))
    (getKey : T → K) (rootKey : R) (key : K) (keyHash : Nat) (hashLen : Nat)
    (e : E) (hf : fetch (levelKey rootKey keyHash hashLen) = .error e) :
    getFromLevel fetch getKey rootKey key keyHash hashLen =
      { resp := ⟨false, default⟩, err := some (.fetchError e),
        fetches := [levelKey rootKey keyHash hashLen] } := by
  rw [getFromLevel]
  simp only [hf]

/-- One-step unfolding of the descent loop at a level whose bucket has the
relevant bit set while the next level would reach `maxDeepLevels`: the
result is `ErrHashTooDeep` and no deeper fetch is issued. -/
theorem getFromLevel_tooDeep {R T K E : Type} [Inhabited T] [DecidableEq K]
    (fetch : BucketKey R → Except E (Bucket T))
    (getKey : T → K) (rootKey : R) (key : K) (keyHash : Nat) (hashLen : Nat)
    (bucket : Bucket T)
    (hf : fetch (levelKey rootKey keyHash hashLen) = .ok bucket)
    (hb : bucket.Bitset.GetBit (computeBitOffsetAtNextLevel keyHash hashLen) = true)
    (hd : hashLen + 1 ≥ maxDeepLevels) :
    getFromLevel fetch getKey rootKey key keyHash hashLen =
      { resp := ⟨false, default⟩, err := some .tooDeep,
        fetches := [levelKey rootKey keyHash hashLen] } := by
  rw [getFromLevel]
  simp only [hf, hb, if_true, dif_pos hd]

/-- One-step unfolding of the descent loop at a level whose bucket has the
relevant bit set and the next level is still below `maxDeepLevels`: the
result is the next level's result, with the current fetch prepended to the
trace. -/
theorem getFromLevel_descend {R T K E : Type} [Inhabited T] [DecidableEq K]
    (fetch : BucketKey R → Except E (Bucket T))
    (getKey : T → K) (rootKey : R) (key : K) (keyHash : Nat) (hashLen : Nat)
    (bucket : Bucket T)
    (hf : fetch (levelKey rootKey keyHash hashLen) = .ok bucket)
    (hb : bucket.Bitset.GetBit (computeBitOffsetAtNextLevel keyHash hashLen) = true)
    (hd : ¬ hashLen + 1 ≥ maxDeepLevels) :
    getFromLevel fetch getKey rootKey key keyHash hashLen =
      { resp := (getFromLevel fetch getKey rootKey key keyHash (hashLen + 1)).resp,
        err := (getFromLevel fetch getKey rootKey key keyHash (hashLen + 1)).err,
        fetches := levelKey rootKey keyHash hashLen ::
          (getFromLevel fetch getKey rootKey key keyHash (hashLen + 1)).fetches } := by
  conv_lhs => rw [getFromLevel]
  simp only [hf, hb, if_true, dif_neg hd]

/-- One-step unfolding of the descent loop at a terminal level (bit unset):
the bucket's items are scanned in storage order via `List.find?`. -/
theorem getFromLevel_terminal {R T K E : Type} [Inhabited T] [DecidableEq K]
    (fetch : BucketKey R → Except E (Bucket T))
    (getKey : T → K) (rootKey : R) (key : K) (keyHash : Nat) (hashLen : Nat)
    (bucket : Bucket T)
    (hf : fetch (levelKey rootKey keyHash hashLen) = .ok bucket)
    (hb : bucket.Bitset.GetBit (computeBitOffsetAtNextLevel keyHash hashLen) = false) :
    getFromLevel fetch getKey rootKey key keyHash hashLen =
      match bucket.Items.find? (fun it => decide (getKey it = key)) with
      | some it =>
          { resp := ⟨true, it⟩, err := none,
            fetches := [levelKey rootKey keyHash hashLen] }
      | none =>
          { resp := ⟨false, default⟩, err := none,
            fetches := [levelKey rootKey keyHash hashLen] } := by
  rw [getFromLevel]
  simp only [hf, hb, if_false]
  match hfind : bucket.Items.find? (fun it => decide (getKey it = key)) with
  | some it => simp [hfind]
  | none => simp [hfind]

/-- Masking a 64-bit value with `MaxUint64 << s` (wrapped to 64 bits)
clears its low `s` bits: the result is `x / 2^s * 2^s`. -/
theorem maskLow_eq_div_mul (x s : Nat) (hx : x < 2 ^ 64) :
    x &&& ((maxUint64 <<< s) % 2 ^ 64) = x / 2 ^ s * 2 ^ s := by
  have hsh : x &&& ((maxUint64 <<< s) % 2 ^ 64) = x >>> s <<< s := by
    apply Nat.eq_of_testBit_eq
    intro i
    simp only [Nat.testBit_and, Nat.testBit_mod_two_pow, Nat.testBit_shiftLeft,
      Nat.testBit_shiftRight, maxUint64, Nat.testBit_two_pow_sub_one]
    by_cases h1 : s ≤ i
    · by_cases h2 : i < 64
      · have h3 : i - s < 64 := by omega
        have h4 : s + (i - s) = i := by omega
        simp [h1, h2, h3, h4]
      · have h5 : x.testBit i = false := by
          apply Nat.testBit_lt_two_pow
          calc x < 2 ^ 64 := hx
            _ ≤ 2 ^ i := Nat.pow_le_pow_right (by norm_num) (by omega)
        have h6 : x.testBit (s + (i - s)) = false := by
          apply Nat.testBit_lt_two_pow
          calc x < 2 ^ 64 := hx
            _ ≤ 2 ^ (s + (i - s)) := Nat.pow_le_pow_right (by norm_num) (by omega)
        simp [h5, h6]
    · simp [h1]
  rw [hsh, Nat.shiftRight_eq_div_pow, Nat.shiftLeft_eq]

/-- Unfold `computeHashAtLevel` to its arithmetic meaning for a 64-bit hash:
the hash with its low `64 - 8*hashLen` bits cleared. -/
theorem computeHashAtLevel_eq_div_mul (hash hashLen : Nat) (hh : hash < 2 ^ 64) :
    computeHashAtLevel hash hashLen =
      hash / 2 ^ (64 - 8 * hashLen) * 2 ^ (64 - 8 * hashLen) := by
  rw [computeHashAtLevel, maskLow_eq_div_mul hash _ hh]

/-- Unfold `computeBitOffsetAtNextLevel` to its arithmetic meaning: the byte
of `hash` just below the top `8*currentHashLen` bits. -/
theorem computeBitOffsetAtNextLevel_eq_div_mod (hash currentHashLen : Nat) :
    computeBitOffsetAtNextLevel hash currentHashLen =
      hash / 2 ^ (64 - 8 - currentHashLen * 8) % 256 := by
  rw [computeBitOffsetAtNextLevel, Nat.shiftRight_eq_div_pow]
  have h255 : (0xff : Nat) = 2 ^ 8 - 1 := by norm_num
  rw [h255, Nat.and_pow_two_sub_one_eq_mod]

/-- C4: for every 64-bit hash and every depth in `[0, maxDeepLevels)`,
`computeHashAtLevel hash depth` equals `hash` with only its top `depth`
bytes retained (all bits below the top `8*depth` bits cleared), and at
depth 0 it is always 0. -/
theorem claim_C4_hash_masking (hash depth : Nat) (hh : hash < 2 ^ 64)
    (hd : depth < maxDeepLevels) :
    computeHashAtLevel hash depth =
      hash / 2 ^ (64 - 8 * depth) * 2 ^ (64 - 8 * depth) ∧
    computeHashAtLevel hash depth % 2 ^ (64 - 8 * depth) = 0 ∧
    computeHashAtLevel hash 0 = 0 := by
  refine ⟨computeHashAtLevel_eq_div_mul hash depth hh, ?_, ?_⟩
  · rw [computeHashAtLevel_eq_div_mul hash depth hh]
    exact Nat.mul_mod_left _ _
  · rw [computeHashAtLevel_eq_div_mul hash 0 hh]
    have h0 : hash / 2 ^ (64 - 8 * 0) = 0 := Nat.div_eq_of_lt (by simpa using hh)
    simp only [h0, Nat.zero_mul]

/-- Witness for C4 at `hash = 2^63 + 5`, `depth = 1`. -/
theorem claim_C4_hash_masking_witness :
    ((2 : Nat) ^ 63 + 5 < 2 ^ 64 ∧ 1 < maxDeepLevels) ∧
    (computeHashAtLevel (2 ^ 63 + 5) 1 =
        (2 ^ 63 + 5) / 2 ^ (64 - 8 * 1) * 2 ^ (64 - 8 * 1) ∧
      computeHashAtLevel (2 ^ 63 + 5) 1 % 2 ^ (64 - 8 * 1) = 0 ∧
      computeHashAtLevel (2 ^ 63 + 5) 0 = 0) :=
  ⟨⟨by norm_num, by decide⟩,
    claim_C4_hash_masking (2 ^ 63 + 5) 1 (by norm_num) (by decide)⟩

/-- C5: for every 64-bit hash and every depth in `[0, maxDeepLevels)`,
`computeBitOffsetAtNextLevel hash depth` is in `[0, 255]` and equals the
byte at offset `depth` of the big-endian encoding of `hash`. -/
theorem claim_C5_bit_offset_byte (hash depth : Nat) (hd : depth < maxDeepLevels) :
    computeBitOffsetAtNextLevel hash depth < 256 ∧
    computeBitOffsetAtNextLevel hash depth = (putUint64BE hash).getD depth 0 := by
  constructor
  · rw [computeBitOffsetAtNextLevel_eq_div_mod]
    exact Nat.mod_lt _ (by norm_num)
  · rw [computeBitOffsetAtNextLevel_eq_div_mod]
    simp only [maxDeepLevels] at hd
    interval_cases depth <;>
      simp [putUint64BE, Nat.shiftRight_eq_div_pow]

/-- Witness for C5 at `hash = 0x0123456789abcdef`, `depth = 2`. -/
theorem claim_C5_bit_offset_byte_witness :
    2 < maxDeepLevels ∧
    (computeBitOffsetAtNextLevel 0x0123456789abcdef 2 < 256 ∧
     computeBitOffsetAtNextLevel 0x0123456789abcdef 2 =
       (putUint64BE 0x0123456789abcdef).getD 2 0) :=
  ⟨by decide, claim_C5_bit_offset_byte 0x0123456789abcdef 2 (by decide)⟩

/-- C6: the byte used for the bitset test at a depth matches the byte
embedded in the child key's hash: for every 64-bit hash and depth with
`depth + 1 < maxDeepLevels`,
`computeHashAtLevel hash (depth+1) = computeHashAtLevel hash depth +
(computeBitOffsetAtNextLevel hash depth <<< (64 - 8*(depth+1)))`. -/
theorem claim_C6_byte_consistency (hash depth : Nat) (hh : hash < 2 ^ 64)
    (hd : depth + 1 < maxDeepLevels) :
    computeHashAtLevel hash (depth + 1) =
      computeHashAtLevel hash depth +
        (computeBitOffsetAtNextLevel hash depth <<< (64 - 8 * (depth + 1))) := by
  simp only [maxDeepLevels] at hd
  rw [computeHashAtLevel_eq_div_mul hash (depth + 1) hh,
      computeHashAtLevel_eq_div_mul hash depth hh,
      computeBitOffsetAtNextLevel_eq_div_mod, Nat.shiftLeft_eq]
  have harg : 64 - 8 - depth * 8 = 64 - 8 * (depth + 1) := by omega
  have h256 : (256 : Nat) = 2 ^ 8 := by norm_num
  rw [harg, h256]
  have h8 : 64 - 8 * depth = (64 - 8 * (depth + 1)) + 8 := by omega
  rw [h8, pow_add]
  rw [← Nat.div_div_eq_div_mul hash (2 ^ (64 - 8 * (depth + 1))) (2 ^ 8)]
  generalize hash / 2 ^ (64 - 8 * (depth + 1)) = a
  conv_lhs => rw [← Nat.div_add_mod a (2 ^ 8)]
  ring

/-- Witness for C6 at `hash = 0x0123456789abcdef`, `depth = 1`. -/
theorem claim_C6_byte_consistency_witness :
    ((0x0123456789abcdef : Nat) < 2 ^ 64 ∧ 1 + 1 < maxDeepLevels) ∧
    computeHashAtLevel 0x0123456789abcdef (1 + 1) =
      computeHashAtLevel 0x0123456789abcdef 1 +
        (computeBitOffsetAtNextLevel 0x0123456789abcdef 1 <<< (64 - 8 * (1 + 1))) :=
  ⟨⟨by norm_num, by decide⟩,
    claim_C6_byte_consistency 0x0123456789abcdef 1 (by norm_num) (by decide)⟩

/-- Taking the first `n < 5` bytes of the big-endian encoding yields the
bytes `hash / 2^(8*(7-i)) % 256` for `i = 0, ..., n-1`. -/
theorem take_putUint64BE (h n : Nat) (hn : n < 5) :
    (putUint64BE h).take n =
      (List.range n).map fun i => h / 2 ^ (8 * (7 - i)) % 256 := by
  interval_cases n <;>
    simp [putUint64BE, List.range_succ, Nat.shiftRight_eq_div_pow]

/-- Hex encoding of a byte list produces exactly two characters per byte. -/
theorem length_hexBytes (bs : List Nat) :
    (bs.flatMap fun b => [hexDigit (b / 16), hexDigit (b % 16)]).length =
      2 * bs.length := by
  induction bs with
  | nil => rfl
  | cons b tl ih => simp only [List.flatMap_cons, List.length_append,
      List.length_cons, List.length_nil, ih]; omega

/-- C7: for every BucketKey with `HashLen < maxDeepLevels`, the rendered
string is the root key's rendering, a colon, and the hex encoding of the
first `HashLen` bytes of the big-endian encoding of `Hash`; at
`HashLen = 0` it is the root rendering followed by a bare colon. -/
theorem claim_C7_bucket_key_render {R : Type} (rootStr : R → String) (k : BucketKey R)
    (hlen : k.HashLen < maxDeepLevels) :
    BucketKey.String rootStr k = rootStr k.RootKey ++ ":" ++
      hexEncodeToString
        ((List.range k.HashLen).map fun i => k.Hash / 2 ^ (8 * (7 - i)) % 256) ∧
    (k.HashLen = 0 → BucketKey.String rootStr k = rootStr k.RootKey ++ ":") := by
  simp only [maxDeepLevels] at hlen
  constructor
  · rw [BucketKey.String, take_putUint64BE k.Hash k.HashLen hlen]
  · intro h0
    rw [BucketKey.String, h0]
    apply String.ext
    simp [hexEncodeToString]

/-- Witness for C7 at a concrete key of depth 2. -/
theorem claim_C7_bucket_key_render_witness :
    (BucketKey.mk "root" 0x0123000000000000 2).HashLen < maxDeepLevels ∧
    (BucketKey.String (fun r => r) (BucketKey.mk "root" 0x0123000000000000 2) =
        (fun (r : String) => r) "root" ++ ":" ++
          hexEncodeToString ((List.range 2).map fun i =>
            0x0123000000000000 / 2 ^ (8 * (7 - i)) % 256) ∧
      ((BucketKey.mk "root" 0x0123000000000000 2).HashLen = 0 →
        BucketKey.String (fun r => r) (BucketKey.mk "root" 0x0123000000000000 2) =
          (fun (r : String) => r) "root" ++ ":")) :=
  ⟨by decide,
    claim_C7_bucket_key_render (fun r => r)
      (BucketKey.mk "root" 0x0123000000000000 2) (by decide)⟩

/-- C8: rendered cache keys with the same root key but different depths
(both below `maxDeepLevels`) are distinct strings. -/
theorem claim_C8_render_depth_injective {R : Type} (rootStr : R → String)
    (k1 k2 : BucketKey R) (hroot : k1.RootKey = k2.RootKey)
    (h1 : k1.HashLen < maxDeepLevels) (h2 : k2.HashLen < maxDeepLevels)
    (hne : k1.HashLen ≠ k2.HashLen) :
    BucketKey.String rootStr k1 ≠ BucketKey.String rootStr k2 := by
  simp only [maxDeepLevels] at h1 h2
  intro heq
  have hdata := congrArg String.data heq
  simp only [BucketKey.String, String.data_append] at hdata
  have hl := congrArg List.length hdata
  simp only [List.length_append] at hl
  have e1 : (hexEncodeToString ((putUint64BE k1.Hash).take k1.HashLen)).data.length =
      2 * ((putUint64BE k1.Hash).take k1.HashLen).length := length_hexBytes _
  have e2 : (hexEncodeToString ((putUint64BE k2.Hash).take k2.HashLen)).data.length =
      2 * ((putUint64BE k2.Hash).take k2.HashLen).length := length_hexBytes _
  have t1 : ((putUint64BE k1.Hash).take k1.HashLen).length = k1.HashLen := by
    simp [putUint64BE]; omega
  have t2 : ((putUint64BE k2.Hash).take k2.HashLen).length = k2.HashLen := by
    simp [putUint64BE]; omega
  rw [e1, e2, t1, t2, hroot] at hl
  omega

/-- Witness for C8: a depth-0 and a depth-1 key for the same root render
differently. -/
theorem claim_C8_render_depth_injective_witness :
    ((BucketKey.mk "r" 0 0).RootKey = (BucketKey.mk "r" 0 1).RootKey ∧
      (BucketKey.mk "r" 0 0).HashLen < maxDeepLevels ∧
      (BucketKey.mk "r" 0 1).HashLen < maxDeepLevels ∧
      (BucketKey.mk "r" 0 0).HashLen ≠ (BucketKey.mk "r" 0 1).HashLen) ∧
    BucketKey.String (fun r => r) (BucketKey.mk "r" 0 0) ≠
      BucketKey.String (fun r => r) (BucketKey.mk "r" 0 1) :=
  ⟨⟨rfl, by decide, by decide, by decide⟩,
    claim_C8_render_depth_injective (fun r => r) (BucketKey.mk "r" 0 0)
      (BucketKey.mk "r" 0 1) rfl (by decide) (by decide) (by decide)⟩

/-- Level-0 hash prefixes are always zero: Go's `MaxUint64 << 64` wraps to
zero, so the root bucket is addressed with hash prefix 0 for every key. -/
theorem computeHashAtLevel_zero (kh : Nat) : computeHashAtLevel kh 0 = 0 := by
  rw [computeHashAtLevel]
  norm_num [Nat.shiftLeft_eq, Nat.mul_mod_left]

/-- C1: at any bucket reached by Get whose bitset bit at the query key's
next-byte offset is unset, Get scans `Items` in storage order and returns
the first item whose projected key equals the query key with `Valid = true`
and a nil error; with no match it returns `Valid = false` and a nil error. -/
theorem claim_C1_terminal_scan {R T K E : Type} [Inhabited T] [DecidableEq K]
    (fetch : BucketKey R → Except E (Bucket T))
    (getKey : T → K) (rootKey : R) (key : K) (keyHash : Nat) (hashLen : Nat)
    (bucket : Bucket T)
    (hf : fetch (levelKey rootKey keyHash hashLen) = .ok bucket)
    (hb : bucket.Bitset.GetBit (computeBitOffsetAtNextLevel keyHash hashLen) = false) :
    (getFromLevel fetch getKey rootKey key keyHash hashLen).resp =
      (match bucket.Items.find? (fun it => decide (getKey it = key)) with
        | some it => ⟨true, it⟩
        | none => ⟨false, default⟩) ∧
    (getFromLevel fetch getKey rootKey key keyHash hashLen).err = none := by
  rw [getFromLevel_terminal fetch getKey rootKey key keyHash hashLen bucket hf hb]
  cases hfind : bucket.Items.find? (fun it => decide (getKey it = key)) <;>
    simp [hfind]

/-- Concrete all-unset bitset for the witness scenarios. -/
def demoBitsetOff : BitSet := fun _ => false

/-- Concrete all-set bitset for the witness scenarios. -/
def demoBitsetOn : BitSet := fun _ => true

/-- Concrete terminal bucket holding the items 10 and 20. -/
def demoBucket : Bucket Nat := { Items := [10, 20], Bitset := demoBitsetOff }

/-- Concrete item accessor that returns `demoBucket` for every key. -/
def demoFetchOk : BucketKey String → Except Nat (Bucket Nat) := fun _ => .ok demoBucket

/-- Witness for C1: looking up the key 20 in the terminal root bucket. -/
theorem claim_C1_terminal_scan_witness :
    (demoFetchOk (levelKey "r" 0 0) = .ok demoBucket ∧
      demoBucket.Bitset.GetBit (computeBitOffsetAtNextLevel 0 0) = false) ∧
    ((getFromLevel demoFetchOk id "r" 20 0 0).resp =
        (match demoBucket.Items.find? (fun it => decide (id it = 20)) with
          | some it => ⟨true, it⟩
          | none => ⟨false, default⟩) ∧
      (getFromLevel demoFetchOk id "r" 20 0 0).err = none) :=
  ⟨⟨rfl, rfl⟩, claim_C1_terminal_scan demoFetchOk id "r" 20 0 0 demoBucket rfl rfl⟩

/-- C2: when the relevant bit is set at every depth 0 through 4, Get stops
with `ErrHashTooDeep`: exactly the five buckets at depths 0..4 are fetched,
no fetch is issued at depth 5, and the result stays `Valid = false`. -/
theorem claim_C2_too_deep {R T K E : Type} [Inhabited T] [DecidableEq K]
    (fetch : BucketKey R → Except E (Bucket T))
    (getKey : T → K) (rootKey : R) (key : K) (keyHash : Nat)
    (bs : Nat → Bucket T)
    (hall : ∀ d, d < maxDeepLevels →
      fetch (levelKey rootKey keyHash d) = .ok (bs d) ∧
      (bs d).Bitset.GetBit (computeBitOffsetAtNextLevel keyHash d) = true) :
    getFromLevel fetch getKey rootKey key keyHash 0 =
      { resp := ⟨false, default⟩, err := some .tooDeep,
        fetches := (List.range maxDeepLevels).map (levelKey rootKey keyHash) } ∧
    ∀ bk ∈ (getFromLevel fetch getKey rootKey key keyHash 0).fetches,
      bk.HashLen < maxDeepLevels := by
  have hmain : getFromLevel fetch getKey rootKey key keyHash 0 =
      { resp := ⟨false, default⟩, err := some .tooDeep,
        fetches := (List.range maxDeepLevels).map (levelKey rootKey keyHash) } := by
    rw [getFromLevel_descend fetch getKey rootKey key keyHash 0 (bs 0)
          (hall 0 (by decide)).1 (hall 0 (by decide)).2 (by decide),
        getFromLevel_descend fetch getKey rootKey key keyHash 1 (bs 1)
          (hall 1 (by decide)).1 (hall 1 (by decide)).2 (by decide),
        getFromLevel_descend fetch getKey rootKey key keyHash 2 (bs 2)
          (hall 2 (by decide)).1 (hall 2 (by decide)).2 (by decide),
        getFromLevel_descend fetch getKey rootKey key keyHash 3 (bs 3)
          (hall 3 (by decide)).1 (hall 3 (by decide)).2 (by decide),
        getFromLevel_tooDeep fetch getKey rootKey key keyHash 4 (bs 4)
          (hall 4 (by decide)).1 (hall 4 (by decide)).2 (by decide)]
    simp [maxDeepLevels, List.range_succ]
  refine ⟨hmain, ?_⟩
  rw [hmain]
  intro bk hbk
  simp only [List.mem_map, List.mem_range] at hbk
  obtain ⟨d, hd5, rfl⟩ := hbk
  simpa [levelKey] using hd5

/-- Concrete always-splitting accessor: every bucket has every bit set. -/
def demoFetchDeep : BucketKey String → Except Nat (Bucket Nat) :=
  fun _ => .ok { Items := [], Bitset := demoBitsetOn }

/-- Witness for C2: descending through five all-set buckets. -/
theorem claim_C2_too_deep_witness :
    (∀ d, d < maxDeepLevels →
      demoFetchDeep (levelKey "r" 0 d) =
        .ok ({ Items := [], Bitset := demoBitsetOn } : Bucket Nat) ∧
      BitSet.GetBit
        (Bucket.Bitset ({ Items := [], Bitset := demoBitsetOn } : Bucket Nat))
        (computeBitOffsetAtNextLevel 0 d) = true) ∧
    (getFromLevel demoFetchDeep id "r" 20 0 0 =
      { resp := ⟨false, default⟩, err := some .tooDeep,
        fetches := (List.range maxDeepLevels).map (levelKey "r" 0) } ∧
    ∀ bk ∈ (getFromLevel demoFetchDeep id "r" 20 0 0).fetches,
      bk.HashLen < maxDeepLevels) :=
  ⟨fun _ _ => ⟨rfl, rfl⟩,
    claim_C2_too_deep demoFetchDeep id "r" 20 0 (fun _ => ⟨[], demoBitsetOn⟩)
      (fun _ _ => ⟨rfl, rfl⟩)⟩

/-- Chaining `n` successful set-bit levels: the descent from `hashLen`
reaches `hashLen + n`, prepending the intermediate fetches to the trace and
leaving the result untouched. -/
theorem getFromLevel_chain {R T K E : Type} [Inhabited T] [DecidableEq K]
    (fetch : BucketKey R → Except E (Bucket T))
    (getKey : T → K) (rootKey : R) (key : K) (keyHash : Nat)
    (bs : Nat → Bucket T) :
    ∀ n hashLen, hashLen + n < maxDeepLevels →
    (∀ j, hashLen ≤ j → j < hashLen + n →
      fetch (levelKey rootKey keyHash j) = .ok (bs j) ∧
      (bs j).Bitset.GetBit (computeBitOffsetAtNextLevel keyHash j) = true) →
    getFromLevel fetch getKey rootKey key keyHash hashLen =
      { resp := (getFromLevel fetch getKey rootKey key keyHash (hashLen + n)).resp,
        err := (getFromLevel fetch getKey rootKey key keyHash (hashLen + n)).err,
        fetches := (List.range' hashLen n).map (levelKey rootKey keyHash) ++
          (getFromLevel fetch getKey rootKey key keyHash (hashLen + n)).fetches } := by
  intro n
  induction n with
  | zero => intro hashLen _ _; simp
  | succ m ih =>
    intro hashLen hlt hall
    have h0 := hall hashLen le_rfl (by omega)
    rw [getFromLevel_descend fetch getKey rootKey key keyHash hashLen (bs hashLen)
          h0.1 h0.2 (by simp only [maxDeepLevels] at *; omega)]
    have hidx : hashLen + 1 + m = hashLen + (m + 1) := by omega
    have ihh := ih (hashLen + 1) (by omega)
      (fun j hj1 hj2 => hall j (by omega) (by omega))
    rw [hidx] at ihh
    rw [ihh, List.range'_succ]
    simp

/-- C3: if the bucket fetch errs at depth `d` of the descent, Get stores
and returns that exact error value, the result stays `Valid = false`, and
fetches are issued only for depths 0..d — never deeper. -/
theorem claim_C3_fetch_error_propagates {R T K E : Type} [Inhabited T] [DecidableEq K]
    (fetch : BucketKey R → Except E (Bucket T))
    (getKey : T → K) (rootKey : R) (key : K) (keyHash : Nat)
    (bs : Nat → Bucket T) (d : Nat) (e : E)
    (hd : d < maxDeepLevels)
    (hok : ∀ j, j < d →
      fetch (levelKey rootKey keyHash j) = .ok (bs j) ∧
      (bs j).Bitset.GetBit (computeBitOffsetAtNextLevel keyHash j) = true)
    (herr : fetch (levelKey rootKey keyHash d) = .error e) :
    getFromLevel fetch getKey rootKey key keyHash 0 =
      { resp := ⟨false, default⟩, err := some (.fetchError e),
        fetches := (List.range (d + 1)).map (levelKey rootKey keyHash) } := by
  have hchain := getFromLevel_chain fetch getKey rootKey key keyHash bs d 0
    (by omega) (fun j hj1 hj2 => hok j (by omega))
  simp only [Nat.zero_add] at hchain
  rw [hchain, getFromLevel_fetchError fetch getKey rootKey key keyHash d e herr]
  simp [List.range_succ, List.range_eq_range']

/-- Concrete accessor whose depth-0 bucket splits and whose depth-1 fetch
fails with the backend error 42. -/
def demoFetchErr : BucketKey String → Except Nat (Bucket Nat) :=
  fun bk =>
    if bk.HashLen = 0 then .ok { Items := [], Bitset := demoBitsetOn }
    else .error 42

/-- Witness for C3: the depth-1 fetch error 42 is returned unchanged after
exactly the fetches at depths 0 and 1. -/
theorem claim_C3_fetch_error_propagates_witness :
    (1 < maxDeepLevels ∧
      (∀ j, j < 1 →
        demoFetchErr (levelKey "r" 0 j) =
          .ok ((fun _ => ({ Items := [], Bitset := demoBitsetOn } : Bucket Nat)) j) ∧
        BitSet.GetBit
          (Bucket.Bitset
            ((fun (_ : Nat) => ({ Items := [], Bitset := demoBitsetOn } : Bucket Nat)) j))
          (computeBitOffsetAtNextLevel 0 j) = true) ∧
      demoFetchErr (levelKey "r" 0 1) = .error 42) ∧
    getFromLevel demoFetchErr id "r" 20 0 0 =
      { resp := ⟨false, default⟩, err := some (.fetchError 42),
        fetches := (List.range (1 + 1)).map (levelKey "r" 0) } :=
  ⟨⟨by decide, fun j hj => by interval_cases j; exact ⟨rfl, rfl⟩, rfl⟩,
    claim_C3_fetch_error_propagates demoFetchErr id "r" 20 0
      (fun _ => { Items := [], Bitset := demoBitsetOn }) 1 42 (by decide)
      (fun j hj => by interval_cases j; exact ⟨rfl, rfl⟩) rfl⟩

/-- Invariant of the descent: starting below `maxDeepLevels`, every fetched
key has a level between the start level and `maxDeepLevels`, its `Hash`
field is exactly the level prefix of the query hash, and its root is the
query's root key. The bound `n` dominates the remaining levels. -/
theorem getFromLevel_fetches_inv {R T K E : Type} [Inhabited T] [DecidableEq K]
    (fetch : BucketKey R → Except E (Bucket T))
    (getKey : T → K) (rootKey : R) (key : K) (keyHash : Nat) :
    ∀ n hashLen, hashLen < maxDeepLevels → maxDeepLevels - hashLen ≤ n →
    ∀ bk ∈ (getFromLevel fetch getKey rootKey key keyHash hashLen).fetches,
      hashLen ≤ bk.HashLen ∧ bk.HashLen < maxDeepLevels ∧
      bk.Hash = computeHashAtLevel keyHash bk.HashLen ∧ bk.RootKey = rootKey := by
  intro n
  induction n with
  | zero => intro hashLen h1 h2; simp only [maxDeepLevels] at h1 h2; omega
  | succ m ih =>
    intro hashLen h1 h2 bk hbk
    cases hf : fetch (levelKey rootKey keyHash hashLen) with
    | error e =>
      rw [getFromLevel_fetchError fetch getKey rootKey key keyHash hashLen e hf] at hbk
      simp only [List.mem_singleton] at hbk
      subst hbk
      exact ⟨le_rfl, h1, rfl, rfl⟩
    | ok bucket =>
      cases hgb : bucket.Bitset.GetBit (computeBitOffsetAtNextLevel keyHash hashLen) with
      | false =>
        rw [getFromLevel_terminal fetch getKey rootKey key keyHash hashLen bucket hf hgb] at hbk
        cases hfind : bucket.Items.find? (fun it => decide (getKey it = key)) <;>
            simp only [hfind, List.mem_singleton] at hbk <;> subst hbk <;>
          exact ⟨le_rfl, h1, rfl, rfl⟩
      | true =>
        by_cases hdd : hashLen + 1 ≥ maxDeepLevels
        · rw [getFromLevel_tooDeep fetch getKey rootKey key keyHash hashLen bucket
              hf hgb hdd] at hbk
          simp only [List.mem_singleton] at hbk
          subst hbk
          exact ⟨le_rfl, h1, rfl, rfl⟩
        · rw [getFromLevel_descend fetch getKey rootKey key keyHash hashLen bucket
              hf hgb hdd] at hbk
          simp only [List.mem_cons] at hbk
          rcases hbk with rfl | hbk
          · exact ⟨le_rfl, h1, rfl, rfl⟩
          · have hrec := ih (hashLen + 1) (by omega)
              (by simp only [maxDeepLevels] at *; omega) bk hbk
            exact ⟨by omega, hrec.2.1, hrec.2.2⟩

/-- C10: throughout a Get descent every fetched `BucketKey` has
`HashLen ≤ 4` (so the source's shift counts `64 - 8*hashLen` and
`64 - 8 - hashLen*8` stay nonnegative: `8*HashLen + 8 ≤ 64`), and its
`Hash` is the level prefix of the query hash with all bytes below the top
`HashLen` bytes zero. -/
theorem claim_C10_depth_safety {R T K E : Type} [Inhabited T] [DecidableEq K]
    (fetch : BucketKey R → Except E (Bucket T))
    (getKey : T → K) (keyHashFn : K → Nat) (rootKey : R) (key : K)
    (hh : keyHashFn key < 2 ^ 64) :
    ∀ bk ∈ (hashGet fetch getKey keyHashFn rootKey key).fetches,
      bk.HashLen < maxDeepLevels ∧ 8 * bk.HashLen + 8 ≤ 64 ∧
      bk.Hash = computeHashAtLevel (keyHashFn key) bk.HashLen ∧
      bk.Hash % 2 ^ (64 - 8 * bk.HashLen) = 0 := by
  intro bk hbk
  have hinv := getFromLevel_fetches_inv fetch getKey rootKey key (keyHashFn key)
    maxDeepLevels 0 (by decide) (by omega) bk hbk
  have hlen : bk.HashLen < maxDeepLevels := hinv.2.1
  have hsh : 8 * bk.HashLen + 8 ≤ 64 := by
    simp only [maxDeepLevels] at hlen; omega
  refine ⟨hlen, hsh, hinv.2.2.1, ?_⟩
  rw [hinv.2.2.1, computeHashAtLevel_eq_div_mul (keyHashFn key) bk.HashLen hh]
  exact Nat.mul_mod_left _ _

/-- Witness for C10 on the concrete terminal-root-bucket scenario. -/
theorem claim_C10_depth_safety_witness :
    (fun (_ : Nat) => (0 : Nat)) 20 < 2 ^ 64 ∧
    ∀ bk ∈ (hashGet demoFetchOk id (fun _ => 0) "r" 20).fetches,
      bk.HashLen < maxDeepLevels ∧ 8 * bk.HashLen + 8 ≤ 64 ∧
      bk.Hash = computeHashAtLevel ((fun (_ : Nat) => (0 : Nat)) 20) bk.HashLen ∧
      bk.Hash % 2 ^ (64 - 8 * bk.HashLen) = 0 :=
  ⟨by norm_num,
    claim_C10_depth_safety demoFetchOk id (fun _ => 0) "r" 20 (by norm_num)⟩

/-- Modelled from the spec: the session/pipeline scheduler's per-round
pending-fetch list (the `memproxy.Session` / `item.Item` collaborators are
not part of the given source file). Registering a fetch for a `BucketKey`
already pending in the current round is coalesced into the existing entry,
so same-round fetches of one key issue one backend round trip. -/
def registerFetch {R : Type} [DecidableEq R]
    (pending : List (BucketKey R)) (k : BucketKey R) : List (BucketKey R) :=
  if k ∈ pending then pending else pending ++ [k]

/-- C9: two Get calls sharing one scheduler that both need only a depth-0
fetch for the same root key compute the same root `BucketKey`
(hash prefix 0, depth 0, whatever the query hashes), so registering both
before the drain leaves exactly one pending backend fetch. -/
theorem claim_C9_depth0_batching {R : Type} [DecidableEq R]
    (rootKey : R) (kh1 kh2 : Nat) :
    registerFetch (registerFetch [] (levelKey rootKey kh1 0)) (levelKey rootKey kh2 0) =
      [⟨rootKey, 0, 0⟩] ∧
    (registerFetch (registerFetch [] (levelKey rootKey kh1 0))
      (levelKey rootKey kh2 0)).length = 1 := by
  have h1 : levelKey rootKey kh1 0 = (⟨rootKey, 0, 0⟩ : BucketKey R) := by
    simp [levelKey, computeHashAtLevel_zero]
  have h2 : levelKey rootKey kh2 0 = (⟨rootKey, 0, 0⟩ : BucketKey R) := by
    simp [levelKey, computeHashAtLevel_zero]
  rw [h1, h2]
  simp [registerFetch]

end Mhash
